import Mathlib

/-! Shallow embedding of the scan / extract / search / rewrite core of the
GARAGE knowledge-base application (src/app.py). Text is modelled at
code-point level (String / List Char), filesystem reads as explicit
results, timestamps as integers. -/

namespace Garage

/-- ASCII whitespace, as matched by the regex whitespace class and by
Python str.split / str.strip. (Python also accepts further Unicode
whitespace; the development only involves the ASCII range.) -/
def isPySpace (c : Char) : Bool :=
  c == ' ' || c == '\t' || c == '\n' || c == '\r' || c == '\x0b' || c == '\x0c'

/-- Python str.lower, modelled character-wise. -/
def pyLower (s : String) : String :=
  String.mk (s.toList.map Char.toLower)

/-- Python str.strip with no argument: remove leading and trailing whitespace. -/
def pyStrip (s : String) : String :=
  String.mk (((s.toList.dropWhile isPySpace).reverse.dropWhile isPySpace).reverse)

/-- Helper for pySplit: fold the characters into runs delimited by
whitespace; delimiters leave empty runs that pySplit discards. -/
def splitWordsAux (cs : List Char) : List (List Char) :=
  cs.foldr
    (fun c acc =>
      if isPySpace c then [] :: acc
      else
        match acc with
        | [] => [[c]]
        | w :: ws => (c :: w) :: ws)
    []

/-- Python str.split with no separator: split on whitespace runs,
producing no empty words. -/
def pySplit (s : String) : List String :=
  ((splitWordsAux s.toList).filter (fun w => !w.isEmpty)).map String.mk

/-- Python str.endswith over code points. -/
def pyEndsWith (s suffix : String) : Bool :=
  List.isSuffixOf suffix.toList s.toList

/-- Python substring containment, needle in hay. -/
def containsSub (hay needle : String) : Bool :=
  hay.toList.tails.any (fun t => needle.toList.isPrefixOf t)

/-- Python str.find over code points: index of the first occurrence of
needle in hay, none when absent. -/
def strFind (hay needle : List Char) : Option Nat :=
  (List.range (hay.length + 1)).find? (fun i => needle.isPrefixOf (hay.drop i))

/-- One backtracking attempt of the whitespace-plus-rest-of-line part of
TITLE_PATTERN (the regex of app.py line 19) at a fixed hash position.
rest is the text after the hash; the argument is the whitespace length
still to be tried, counting down from the greedy maximum. With length b
taken, the dot-plus part needs one more character that is not a newline;
its rest-of-line run then satisfies the MULTILINE end anchor. -/
def titleTryWS (rest : List Char) : Nat → Option String
  | 0 => none
  | b + 1 =>
    match rest.drop (b + 1) with
    | [] => titleTryWS rest b
    | c :: cs =>
      if c == '\n' then titleTryWS rest b
      else some (String.mk (c :: cs.takeWhile (fun x => x != '\n')))

/-- Attempt of TITLE_PATTERN at the current position: a hash, then at
least one whitespace character (greedy, with backtracking), then a
nonempty rest-of-line capture. -/
def titleMatchAt : List Char → Option String
  | '#' :: rest => titleTryWS rest (rest.takeWhile isPySpace).length
  | _ => none

/-- re.search with TITLE_PATTERN (app.py line 56): the leftmost position
with a match wins; the result is the captured group. -/
def titleSearch : List Char → Option String
  | [] => none
  | c :: rest =>
    match titleMatchAt (c :: rest) with
    | some t => some t
    | none => titleSearch rest

/-- The in-memory document record built by extract_instruction_info
(app.py lines 35-41); preview is the transient field search may attach. -/
structure Document where
  id : String
  title : String
  content : String
  images : List String
  modified : Int
  preview : Option String

deriving instance DecidableEq for Document

/-- A directory entry together with the outcome a read of it would have:
ok content or an error message (the exception text). Files that are
never opened carry an irrelevant result. -/
structure FileEntry where
  name : String
  readResult : Except String String

deriving instance DecidableEq for Except

deriving instance DecidableEq for FileEntry

/-- Outcome of listing a folder: its files in enumeration order, or the
exception text when listing fails. -/
inductive ListingResult where
  | ok (files : List FileEntry)
  | err (msg : String)

deriving instance DecidableEq for ListingResult

/-- An entry of the data folder: name, whether it is a directory, its
modification time, and the outcome of listing it. The scanner only
descends into entries whose isDir holds. -/
structure Entry where
  name : String
  isDir : Bool
  mtime : Int
  listing : ListingResult

deriving instance DecidableEq for Entry

/-- Extension allow-list check for image files (app.py line 63): the
lowercased name must end in one of the recognized extensions. -/
def isImageFile (fname : String) : Bool :=
  pyEndsWith (pyLower fname) (".jpg") || pyEndsWith (pyLower fname) (".jpeg") ||
  pyEndsWith (pyLower fname) (".png") || pyEndsWith (pyLower fname) (".gif") ||
  pyEndsWith (pyLower fname) (".webp")

/-- Initial info record of extract_instruction_info (app.py lines 35-41).
The folder exists whenever the scanner calls the extractor (it checked
isdir first), so modified is the folder's mtime. -/
def initInfo (folderName : String) (mtime : Int) : Document :=
  { id := folderName, title := folderName, content := "", images := [],
    modified := mtime, preview := none }

/-- Body of the file loop of extract_instruction_info (app.py lines
49-64): a markdown file is read; on success the title is updated when
TITLE_PATTERN matches and the content is overwritten; on a read error
the content is overwritten with the error text (the title is kept). A
recognized image file is appended to the image list. -/
def processFile (info : Document) (f : FileEntry) : Document :=
  if pyEndsWith f.name (".md") then
    match f.readResult with
    | .ok content =>
      match titleSearch content.toList with
      | some t => { info with title := t, content := content }
      | none => { info with content := content }
    | .error e => { info with content := "Ошибка чтения файла: " ++ e }
  else if isImageFile f.name then
    { info with images := info.images ++ [f.name] }
  else info

/-- extract_instruction_info (app.py lines 32-75). A folder whose listing
fails is reported through the outer exception handler (lines 67-75):
an error title, empty content and modified 0. -/
def extract_instruction_info (folderName : String) (mtime : Int)
    (listing : ListingResult) : Document :=
  match listing with
  | .ok files => files.foldl processFile (initInfo folderName mtime)
  | .err e =>
    { id := folderName, title := "Ошибка: " ++ e, content := "", images := [],
      modified := 0, preview := none }

/-- Stable insertion of a document into a list sorted by modified
descending: the new element goes before the first element with a
strictly smaller key, hence after all earlier elements with an equal
key. -/
def insertByModifiedDesc (x : Document) : List Document → List Document
  | [] => [x]
  | y :: ys =>
    if x.modified < y.modified then y :: insertByModifiedDesc x ys
    else x :: y :: ys

/-- Stable sort by modified descending, modelling the Python stable
list.sort with reverse (app.py line 95). -/
def sortByModifiedDesc : List Document → List Document
  | [] => []
  | x :: xs => insertByModifiedDesc x (sortByModifiedDesc xs)

/-- scan_instructions (app.py lines 77-101): walk the data folder,
extract each subdirectory, keep only documents with nonempty content,
sort by modification time descending. root none models both a missing
data folder and a failing listing of it (both produce the empty list). -/
def scan_instructions (root : Option (List Entry)) : List Document :=
  match root with
  | none => []
  | some entries =>
    sortByModifiedDesc
      (((entries.filter (fun e => e.isDir)).map
          (fun e => extract_instruction_info e.name e.mtime e.listing)).filter
        (fun d => d.content != ""))

/-- Preview construction of the content-search branch (app.py lines
183-202): a window of up to 100 characters around the first occurrence,
with the occurrence marked, wrapped in the labelled preview text. When
find fails the preview field is left as it was (unreachable from the
caller, which checked containment first, but modelled as written). -/
def contentPreviewUpdate (instr : Document) (q : String)
    (contentLower : String) : Option String :=
  match strFind contentLower.toList q.toList with
  | none => instr.preview
  | some queryPos =>
    let content := instr.content.toList
    let start := queryPos - 100
    let stop := min content.length (queryPos + q.length + 100)
    let preview := (content.take stop).drop start
    let previewLower := preview.map Char.toLower
    let previewStr :=
      match strFind previewLower q.toList with
      | some p =>
        String.mk (preview.take p) ++ "<mark>" ++
          String.mk ((preview.drop p).take q.length) ++ "</mark>" ++
          String.mk (preview.drop (p + q.length))
      | none => String.mk preview
    some ("<strong>Название:</strong> " ++ instr.title ++
      "<br><strong>Контекст:</strong> ..." ++ previewStr ++ "...")

/-- Per-document body of the search loop (app.py lines 170-223), with q
already lowercased and stripped: the document is returned (with a
preview attached where the code sets one) when it matches, none
otherwise. An unknown search type matches nothing. -/
def searchOne (q ty mode : String) (instr : Document) : Option Document :=
  let contentLower := pyLower instr.content
  let titleLower := pyLower instr.title
  if ty = "title" then
    if containsSub titleLower q then
      some { instr with preview := some ("<strong>Название:</strong> " ++ instr.title) }
    else none
  else if ty = "content" then
    if containsSub contentLower q then
      some { instr with preview := contentPreviewUpdate instr q contentLower }
    else none
  else if ty = "advanced" then
    if mode = "exact" then
      if containsSub contentLower q || containsSub titleLower q then some instr
      else none
    else if mode = "all" then
      if (pySplit q).all (fun w => containsSub contentLower w) ||
          (pySplit q).all (fun w => containsSub titleLower w) then some instr
      else none
    else
      if (pySplit q).any (fun w => containsSub contentLower w) ||
          (pySplit q).any (fun w => containsSub titleLower w) then some instr
      else none
  else none

/-- search_in_instructions (app.py lines 162-225): an empty query
returns the list unchanged; otherwise the query is lowercased and
stripped and the documents are filtered in order. -/
def search_in_instructions (instructions : List Document)
    (query ty mode : String) : List Document :=
  if query = "" then instructions
  else instructions.filterMap (searchOne (pyStrip (pyLower query)) ty mode)

/-- Forget the transient preview field, the only field search updates on
the documents it returns. -/
def erasePreview (d : Document) : Document := { d with preview := none }

/-- The image-pattern attempt at the current position (the regex of
app.py line 138). The alt group is the run of non-bracket characters
after the opening, the target group the nonempty run of non-parenthesis
characters; on success the remainder after the closing parenthesis is
returned as well. -/
def tryImage : List Char → Option (List Char × List Char × List Char)
  | '!' :: '[' :: rest =>
    (match rest.dropWhile (fun c => c != ']') with
     | ']' :: '(' :: rest2 =>
       (match rest2.dropWhile (fun c => c != ')') with
        | ')' :: rest3 =>
          if rest2.takeWhile (fun c => c != ')') = [] then none
          else some (rest.takeWhile (fun c => c != ']'),
            rest2.takeWhile (fun c => c != ')'), rest3)
        | _ => none)
     | _ => none)
  | _ => none

/-- Replacement callback replace_image (app.py lines 129-135): a target
starting with http keeps the full original match, any other target is
pointed at the internal image route of the given instruction. -/
def imageReplacement (instrId alt tgt : List Char) : List Char :=
  if List.isPrefixOf (['h', 't', 't', 'p']) tgt then
    '!' :: '[' :: (alt ++ ']' :: '(' :: (tgt ++ [')']))
  else
    '!' :: '[' :: (alt ++ ']' :: '(' :: ("/image/".toList ++ (instrId ++ '/' :: (tgt ++ [')']))))

/-- Fuel-indexed re.sub scan for the image pattern: at each position
either a match is consumed and replaced or one character is emitted
verbatim. Each step consumes at least one character, so fuel equal to
the length of the text always suffices. -/
def rewriteImagesAux (instrId : List Char) : Nat → List Char → List Char
  | 0, _ => []
  | _ + 1, [] => []
  | fuel + 1, c :: rest =>
    match tryImage (c :: rest) with
    | some (alt, tgt, r) =>
      imageReplacement instrId alt tgt ++ rewriteImagesAux instrId fuel r
    | none => c :: rewriteImagesAux instrId fuel rest

/-- The image-reference rewrite pass of markdown_to_html (app.py lines
128-139): re.sub of the image pattern with replace_image over the
content. -/
def rewriteImages (instrId : List Char) (cs : List Char) : List Char :=
  rewriteImagesAux instrId cs.length cs

/-- Split a character list into its newline-separated lines. -/
def splitLines (cs : List Char) : List (List Char) :=
  cs.foldr
    (fun c acc =>
      if c = '\n' then [] :: acc
      else
        match acc with
        | [] => [[c]]
        | w :: ws => (c :: w) :: ws)
    [[]]

/-- Written from the claim text, for comparison (claim C3): the capture
of the first content line beginning with hash-space, if any. -/
def specHeadingTitle (content : String) : Option String :=
  ((splitLines content.toList).find?
      (fun l => List.isPrefixOf (['#', ' ']) l)).map
    (fun l => String.mk (l.drop 2))

/-- Written from the spec text, for comparison (claim C5): a target that
begins with a URL scheme, read as a nonempty run of letters followed by
a colon. -/
def specSchemeTarget (tgt : List Char) : Bool :=
  match tgt.dropWhile Char.isAlpha with
  | ':' :: _ => tgt.takeWhile Char.isAlpha != []
  | _ => false

theorem processFile_id (info : Document) (f : FileEntry) :
    (processFile info f).id = info.id := by
  unfold processFile
  split
  · split
    · split <;> rfl
    · rfl
  · split <;> rfl

theorem foldl_processFile_id (files : List FileEntry) (info : Document) :
    (files.foldl processFile info).id = info.id := by
  induction files generalizing info with
  | nil => rfl
  | cons f fs ih => rw [List.foldl_cons, ih, processFile_id]

theorem processFile_nonmd (info : Document) (f : FileEntry)
    (h : pyEndsWith f.name (".md") = false) :
    (processFile info f).content = info.content ∧
      (processFile info f).title = info.title := by
  unfold processFile
  rw [h]
  simp only [Bool.false_eq_true, if_false]
  split <;> exact ⟨rfl, rfl⟩

theorem foldl_processFile_nonmd (files : List FileEntry) (info : Document)
    (h : ∀ f ∈ files, pyEndsWith f.name (".md") = false) :
    (files.foldl processFile info).content = info.content ∧
      (files.foldl processFile info).title = info.title := by
  induction files generalizing info with
  | nil => exact ⟨rfl, rfl⟩
  | cons f fs ih =>
    rw [List.foldl_cons]
    have hf := processFile_nonmd info f (h f (by simp))
    have hrest := ih (processFile info f) (fun g hg => h g (by simp [hg]))
    exact ⟨hrest.1.trans hf.1, hrest.2.trans hf.2⟩

theorem mem_insertByModifiedDesc {a x : Document} {l : List Document} :
    a ∈ insertByModifiedDesc x l ↔ a = x ∨ a ∈ l := by
  induction l with
  | nil => simp [insertByModifiedDesc]
  | cons y ys ih =>
    unfold insertByModifiedDesc
    split
    · simp only [List.mem_cons, ih]
      tauto
    · simp [List.mem_cons]

theorem mem_sortByModifiedDesc {a : Document} {l : List Document} :
    a ∈ sortByModifiedDesc l ↔ a ∈ l := by
  induction l with
  | nil => simp [sortByModifiedDesc]
  | cons x xs ih =>
    simp [sortByModifiedDesc, mem_insertByModifiedDesc, ih]

theorem pairwise_insertByModifiedDesc {x : Document} {l : List Document}
    (h : l.Pairwise (fun a b => b.modified ≤ a.modified)) :
    (insertByModifiedDesc x l).Pairwise (fun a b => b.modified ≤ a.modified) := by
  induction l with
  | nil => simp [insertByModifiedDesc]
  | cons y ys ih =>
    rw [List.pairwise_cons] at h
    obtain ⟨hy, hys⟩ := h
    unfold insertByModifiedDesc
    split
    · rename_i hlt
      rw [List.pairwise_cons]
      refine ⟨?_, ih hys⟩
      intro z hz
      rcases mem_insertByModifiedDesc.mp hz with rfl | hz
      · exact le_of_lt hlt
      · exact hy z hz
    · rename_i hge
      push_neg at hge
      rw [List.pairwise_cons]
      refine ⟨?_, List.pairwise_cons.mpr ⟨hy, hys⟩⟩
      intro z hz
      rcases List.mem_cons.mp hz with rfl | hz
      · exact hge
      · exact le_trans (hy z hz) hge

theorem pairwise_sortByModifiedDesc (l : List Document) :
    (sortByModifiedDesc l).Pairwise (fun a b => b.modified ≤ a.modified) := by
  induction l with
  | nil => simp [sortByModifiedDesc]
  | cons x xs ih => exact pairwise_insertByModifiedDesc ih

theorem append_ne_empty_left (s t : String) (h : s ≠ "") : s ++ t ≠ "" := by
  intro hc
  apply h
  have hd : s.data ++ t.data = [] := by
    rw [← String.data_append, hc]
  apply String.ext
  exact (List.append_eq_nil.mp hd).1

/-- C7: searching with the empty query returns the input list unchanged,
for every document list, search type and search mode. -/
theorem C7_empty_query_identity (docs : List Document) (ty mode : String) :
    search_in_instructions docs ("") ty mode = docs := by
  simp [search_in_instructions]

/-- C8: the document list produced by the scanner is always sorted by
modification timestamp in descending order. -/
theorem C8_scan_sorted (root : Option (List Entry)) :
    (scan_instructions root).Pairwise (fun a b => b.modified ≤ a.modified) := by
  cases root with
  | none => simp [scan_instructions]
  | some entries => exact pairwise_sortByModifiedDesc _

/-- C1 (amended): every document in the scanner's output has nonempty
content. A folder whose markdown files read as empty, or which has no
markdown file, is excluded; a folder whose markdown file fails to read
is however included, with the read-error message as its content. -/
theorem C1_output_content_nonempty (root : Option (List Entry)) (d : Document)
    (h : d ∈ scan_instructions root) : d.content ≠ "" := by
  cases root with
  | none => simp [scan_instructions] at h
  | some entries =>
    unfold scan_instructions at h
    rw [mem_sortByModifiedDesc] at h
    have hp := (List.mem_filter.mp h).2
    simpa [bne_iff_ne] using hp

theorem C1_witness :
    (⟨"f", "f", "Ошибка чтения файла: X", [], 5, none⟩ : Document).content ≠ "" :=
  C1_output_content_nonempty
    (some [⟨"f", true, 5, .ok [⟨"a.md", .error ("X")⟩]⟩])
    (⟨"f", "f", "Ошибка чтения файла: X", [], 5, none⟩ : Document)
    (by
      have h : scan_instructions (some [⟨"f", true, 5, .ok [⟨"a.md", .error ("X")⟩]⟩]) =
          [(⟨"f", "f", "Ошибка чтения файла: X", [], 5, none⟩ : Document)] := by decide
      rw [h]
      exact List.Mem.head _)

/-- C1 (counterexample): a folder whose only markdown file cannot be
read is not excluded from the scanner's output: the scan of this single
folder returns one document, whose content is the read-error message
rather than text read from a markdown file. -/
theorem C1_counterexample :
    scan_instructions (some [⟨"f", true, 5, .ok [⟨"a.md", .error ("X")⟩]⟩]) =
      [(⟨"f", "f", "Ошибка чтения файла: X", [], 5, none⟩ : Document)] := by
  decide

/-- C2 (amended): a failing read of a markdown file inside a folder does
not abort the scan; when no later markdown file overwrites it, the
folder stays in the output as a document whose content, not its title,
is the read-error message. A folder-level listing error instead yields
an error-titled document with empty content, which the scanner then
excludes from the output. -/
theorem C2_md_read_error_included (entries : List Entry) (en : Entry)
    (fs1 fs2 : List FileEntry) (mdName e : String)
    (hmem : en ∈ entries) (hdir : en.isDir = true)
    (hlist : en.listing = .ok (fs1 ++ ⟨mdName, .error e⟩ :: fs2))
    (hmd : pyEndsWith mdName (".md") = true)
    (hfs2 : ∀ f ∈ fs2, pyEndsWith f.name (".md") = false) :
    extract_instruction_info en.name en.mtime en.listing ∈
        scan_instructions (some entries) ∧
      (extract_instruction_info en.name en.mtime en.listing).id = en.name ∧
      (extract_instruction_info en.name en.mtime en.listing).content =
        "Ошибка чтения файла: " ++ e := by
  have hcontent : (extract_instruction_info en.name en.mtime en.listing).content =
      "Ошибка чтения файла: " ++ e := by
    rw [hlist]
    simp only [extract_instruction_info]
    rw [List.foldl_append, List.foldl_cons]
    have hrest := foldl_processFile_nonmd fs2
      (processFile (fs1.foldl processFile (initInfo en.name en.mtime)) ⟨mdName, .error e⟩) hfs2
    rw [hrest.1]
    unfold processFile
    simp [hmd]
  have hid : (extract_instruction_info en.name en.mtime en.listing).id = en.name := by
    rw [hlist]
    simp only [extract_instruction_info]
    rw [foldl_processFile_id]
    rfl
  refine ⟨?_, hid, hcontent⟩
  unfold scan_instructions
  rw [mem_sortByModifiedDesc]
  apply List.mem_filter.mpr
  constructor
  · exact List.mem_map.mpr ⟨en, List.mem_filter.mpr ⟨hmem, hdir⟩, rfl⟩
  · rw [hcontent, bne_iff_ne]
    exact append_ne_empty_left _ _ (by decide)

theorem C2_witness :
    extract_instruction_info ("g2") 7 (.ok [⟨"n.md", .error ("E")⟩]) ∈
        scan_instructions (some [⟨"g2", true, 7, .ok [⟨"n.md", .error ("E")⟩]⟩]) ∧
      (extract_instruction_info ("g2") 7 (.ok [⟨"n.md", .error ("E")⟩])).id = "g2" ∧
      (extract_instruction_info ("g2") 7 (.ok [⟨"n.md", .error ("E")⟩])).content =
        "Ошибка чтения файла: " ++ "E" :=
  C2_md_read_error_included [⟨"g2", true, 7, .ok [⟨"n.md", .error ("E")⟩]⟩]
    ⟨"g2", true, 7, .ok [⟨"n.md", .error ("E")⟩]⟩ [] [] ("n.md") ("E")
    (List.Mem.head _) rfl rfl (by decide) (by simp)

/-- C2 (counterexample): for a folder whose listing fails the extractor
does build a document with an error message as title, but its content is
empty, so the scanner drops it: the scan of this single folder is empty
instead of containing an error-titled document for the folder. -/
theorem C2_counterexample :
    scan_instructions (some [⟨"g", true, 3, .err ("boom")⟩]) = [] ∧
      (extract_instruction_info ("g") 3 (.err ("boom"))).title = "Ошибка: boom" := by
  decide

/-- C3 (amended): for a folder holding exactly one markdown file, read
successfully, among non-markdown files, the extracted title is the
capture of the leftmost match of TITLE_PATTERN in the file's content - a
hash followed by whitespace anywhere in the text, capturing the rest of
the line - and the folder's base name when there is no match. The
pattern is not anchored to line starts and also fires on hashes inside a
line or runs of hashes. -/
theorem C3_title_from_pattern (folderName : String) (mtime : Int)
    (fs1 fs2 : List FileEntry) (mdName c : String)
    (h1 : ∀ f ∈ fs1, pyEndsWith f.name (".md") = false)
    (hmd : pyEndsWith mdName (".md") = true)
    (h2 : ∀ f ∈ fs2, pyEndsWith f.name (".md") = false) :
    (extract_instruction_info folderName mtime
        (.ok (fs1 ++ ⟨mdName, .ok c⟩ :: fs2))).title =
      (titleSearch c.toList).getD folderName := by
  simp only [extract_instruction_info]
  rw [List.foldl_append, List.foldl_cons]
  have hfs1 := foldl_processFile_nonmd fs1 (initInfo folderName mtime) h1
  have hrest := foldl_processFile_nonmd fs2
    (processFile (fs1.foldl processFile (initInfo folderName mtime)) ⟨mdName, .ok c⟩) h2
  rw [hrest.2]
  have hpf : (processFile (fs1.foldl processFile (initInfo folderName mtime))
      ⟨mdName, .ok c⟩).title =
      (titleSearch c.toList).getD
        (fs1.foldl processFile (initInfo folderName mtime)).title := by
    unfold processFile
    simp only [hmd, if_true]
    cases titleSearch c.toList <;> simp
  rw [hpf, hfs1.2]
  rfl

theorem C3_witness :
    (extract_instruction_info ("doc") 0
        (.ok [⟨"m.md", .ok ("intro\n# Foo\nbody")⟩])).title =
      (titleSearch (("intro\n# Foo\nbody").toList)).getD ("doc") :=
  C3_title_from_pattern ("doc") 0 [] [] ("m.md") ("intro\n# Foo\nbody")
    (by simp) (by decide) (by simp)

/-- C3 (counterexample): in a file whose only line starts with two
hashes there is no line beginning with hash-space, so the claim predicts
the folder name as title; the extractor instead captures from inside the
hash run and yields the heading text. -/
theorem C3_counterexample :
    specHeadingTitle ("## Bar") = none ∧
      (extract_instruction_info ("f") 0 (.ok [⟨"x.md", .ok ("## Bar")⟩])).title = "Bar" ∧
      ("Bar" : String) ≠ "f" := by
  decide

/-- C4 (amended): with several markdown files the content is determined
by the last markdown file alone, but the title falls to the last file
only when its content matches TITLE_PATTERN; otherwise the title
obtained before processing that file (an earlier file's heading, or the
folder name) survives. -/
theorem C4_last_md_content (folderName : String) (mtime : Int)
    (fs : List FileEntry) (mdName c : String)
    (hmd : pyEndsWith mdName (".md") = true) :
    (extract_instruction_info folderName mtime
        (.ok (fs ++ [⟨mdName, .ok c⟩]))).content = c ∧
      (extract_instruction_info folderName mtime
          (.ok (fs ++ [⟨mdName, .ok c⟩]))).title =
        (titleSearch c.toList).getD
          (extract_instruction_info folderName mtime (.ok fs)).title := by
  simp only [extract_instruction_info]
  rw [List.foldl_append, List.foldl_cons, List.foldl_nil]
  unfold processFile
  simp only [hmd, if_true]
  cases titleSearch c.toList <;> simp

theorem C4_witness :
    (extract_instruction_info ("f") 0
        (.ok ([⟨"a.md", .ok ("# One")⟩] ++ [⟨"b.md", .ok ("x")⟩]))).content = "x" ∧
      (extract_instruction_info ("f") 0
          (.ok ([⟨"a.md", .ok ("# One")⟩] ++ [⟨"b.md", .ok ("x")⟩]))).title =
        (titleSearch (("x").toList)).getD
          (extract_instruction_info ("f") 0 (.ok [⟨"a.md", .ok ("# One")⟩])).title :=
  C4_last_md_content ("f") 0 [⟨"a.md", .ok ("# One")⟩] ("b.md") ("x") (by decide)

/-- C4 (counterexample): two folders whose last markdown file in
enumeration order is the same (content without a heading) end with
different titles, because an earlier file's heading survives: the title
is not determined solely by the last markdown file processed. -/
theorem C4_counterexample :
    (extract_instruction_info ("f") 0
        (.ok [⟨"a.md", .ok ("# One")⟩, ⟨"b.md", .ok ("x")⟩])).content = "x" ∧
      (extract_instruction_info ("f") 0
        (.ok [⟨"a.md", .ok ("# One")⟩, ⟨"b.md", .ok ("x")⟩])).title = "One" ∧
      (extract_instruction_info ("f") 0 (.ok [⟨"b.md", .ok ("x")⟩])).title = "f" := by
  decide

theorem searchOne_advanced_all (q : String) (a : Document) :
    searchOne q ("advanced") ("all") a =
      (if (pySplit q).all (fun w => containsSub (pyLower a.content) w) ||
          (pySplit q).all (fun w => containsSub (pyLower a.title) w) then some a
      else none) := by
  unfold searchOne
  rw [if_neg (by decide : ¬ ("advanced" : String) = "title")]
  rw [if_neg (by decide : ¬ ("advanced" : String) = "content")]
  rw [if_pos (rfl : ("advanced" : String) = "advanced")]
  rw [if_neg (by decide : ¬ ("all" : String) = "exact")]
  rw [if_pos (rfl : ("all" : String) = "all")]

theorem searchOne_advanced_any (q : String) (a : Document) :
    searchOne q ("advanced") ("any") a =
      (if (pySplit q).any (fun w => containsSub (pyLower a.content) w) ||
          (pySplit q).any (fun w => containsSub (pyLower a.title) w) then some a
      else none) := by
  unfold searchOne
  rw [if_neg (by decide : ¬ ("advanced" : String) = "title")]
  rw [if_neg (by decide : ¬ ("advanced" : String) = "content")]
  rw [if_pos (rfl : ("advanced" : String) = "advanced")]
  rw [if_neg (by decide : ¬ ("any" : String) = "exact")]
  rw [if_neg (by decide : ¬ ("any" : String) = "all")]

/-- C6: in advanced search with mode all and a nonempty query, a
document is in the result exactly when every query word occurs in its
lowercased title or every query word occurs in its lowercased content.
The word set is evaluated per field, so words matched partly in the
title and partly in the content never produce a match. -/
theorem C6_advanced_all_iff (docs : List Document) (q : String) (d : Document)
    (hq : q ≠ "") :
    d ∈ search_in_instructions docs q ("advanced") ("all") ↔
      d ∈ docs ∧
        ((∀ w ∈ pySplit (pyStrip (pyLower q)),
            containsSub (pyLower d.title) w = true) ∨
          (∀ w ∈ pySplit (pyStrip (pyLower q)),
            containsSub (pyLower d.content) w = true)) := by
  unfold search_in_instructions
  rw [if_neg hq, List.mem_filterMap]
  constructor
  · rintro ⟨a, ha, hsome⟩
    rw [searchOne_advanced_all] at hsome
    by_cases hc : ((pySplit (pyStrip (pyLower q))).all
          (fun w => containsSub (pyLower a.content) w) ||
        (pySplit (pyStrip (pyLower q))).all
          (fun w => containsSub (pyLower a.title) w)) = true
    · rw [if_pos hc] at hsome
      obtain rfl : a = d := by injection hsome
      rcases Bool.or_eq_true_iff.mp hc with h | h
      · exact ⟨ha, Or.inr (List.all_eq_true.mp h)⟩
      · exact ⟨ha, Or.inl (List.all_eq_true.mp h)⟩
    · rw [if_neg hc] at hsome
      exact absurd hsome (by simp)
  · rintro ⟨hd, hcond⟩
    refine ⟨d, hd, ?_⟩
    rw [searchOne_advanced_all]
    rw [if_pos ?_]
    apply Bool.or_eq_true_iff.mpr
    rcases hcond with h | h
    · exact Or.inr (List.all_eq_true.mpr h)
    · exact Or.inl (List.all_eq_true.mpr h)

theorem C6_witness :
    (⟨"a", "foo bar", "z", [], 0, none⟩ : Document) ∈
        search_in_instructions [⟨"a", "foo bar", "z", [], 0, none⟩]
          ("foo bar") ("advanced") ("all") ↔
      (⟨"a", "foo bar", "z", [], 0, none⟩ : Document) ∈
          [(⟨"a", "foo bar", "z", [], 0, none⟩ : Document)] ∧
        ((∀ w ∈ pySplit (pyStrip (pyLower ("foo bar"))),
            containsSub (pyLower (⟨"a", "foo bar", "z", [], 0, none⟩ : Document).title) w
              = true) ∨
          (∀ w ∈ pySplit (pyStrip (pyLower ("foo bar"))),
            containsSub (pyLower (⟨"a", "foo bar", "z", [], 0, none⟩ : Document).content) w
              = true)) :=
  C6_advanced_all_iff [⟨"a", "foo bar", "z", [], 0, none⟩]
    ("foo bar") (⟨"a", "foo bar", "z", [], 0, none⟩ : Document) (by decide)

theorem searchOne_some_erase {q ty mode : String} {a b : Document}
    (h : searchOne q ty mode a = some b) : erasePreview b = erasePreview a := by
  simp only [searchOne] at h
  split_ifs at h <;>
    (obtain rfl : _ = b := by injection h
     rfl)

theorem filterMap_searchOne_sublist (q ty mode : String) (docs : List Document) :
    List.Sublist ((docs.filterMap (searchOne q ty mode)).map erasePreview)
      (docs.map erasePreview) := by
  induction docs with
  | nil => simp
  | cons a as ih =>
    rw [List.filterMap_cons]
    cases h : searchOne q ty mode a with
    | none => exact ih.cons _
    | some b =>
      simp only [List.map_cons]
      rw [searchOne_some_erase h]
      exact ih.cons₂ _

/-- C9: for a nonempty query the search result is, up to the transient
preview field, a subsequence of the input: every returned document comes
from the input list, in the same relative order, and an input without
duplicates yields a result without duplicates. -/
theorem C9_search_sublist (docs : List Document) (q ty mode : String)
    (hq : q ≠ "") :
    List.Sublist ((search_in_instructions docs q ty mode).map erasePreview)
        (docs.map erasePreview) ∧
      ((docs.map erasePreview).Nodup →
        ((search_in_instructions docs q ty mode).map erasePreview).Nodup) := by
  unfold search_in_instructions
  rw [if_neg hq]
  exact ⟨filterMap_searchOne_sublist _ _ _ _,
    fun hn => (filterMap_searchOne_sublist _ _ _ _).nodup hn⟩

theorem C9_witness :
    List.Sublist
        ((search_in_instructions
            [⟨"a", "T", "C", [], 0, none⟩, ⟨"b", "U", "D", [], 1, none⟩]
            ("t") ("title") ("any")).map erasePreview)
        (([⟨"a", "T", "C", [], 0, none⟩, ⟨"b", "U", "D", [], 1, none⟩] :
            List Document).map erasePreview) ∧
      ((([⟨"a", "T", "C", [], 0, none⟩, ⟨"b", "U", "D", [], 1, none⟩] :
            List Document).map erasePreview).Nodup →
        ((search_in_instructions
            [⟨"a", "T", "C", [], 0, none⟩, ⟨"b", "U", "D", [], 1, none⟩]
            ("t") ("title") ("any")).map erasePreview).Nodup) :=
  C9_search_sublist [⟨"a", "T", "C", [], 0, none⟩, ⟨"b", "U", "D", [], 1, none⟩]
    ("t") ("title") ("any") (by decide)

theorem toLower_isPySpace {c : Char} (h : isPySpace c = true) :
    c.toLower = c := by
  simp only [isPySpace, Bool.or_eq_true, beq_iff_eq] at h
  rcases h with ((((h | h) | h) | h) | h) | h <;> subst h <;> decide

theorem dropWhile_all_eq_nil {p : Char → Bool} {l : List Char}
    (h : ∀ c ∈ l, p c = true) : l.dropWhile p = [] := by
  induction l with
  | nil => rfl
  | cons x xs ih =>
    rw [List.dropWhile_cons, if_pos (h x (by simp))]
    exact ih (fun c hc => h c (by simp [hc]))

theorem pyStrip_all_space {q : String} (h : ∀ c ∈ q.toList, isPySpace c = true) :
    pyStrip (pyLower q) = "" := by
  unfold pyStrip pyLower
  have hall : ∀ c ∈ (String.mk (q.toList.map Char.toLower)).toList,
      isPySpace c = true := by
    intro c hc
    rw [show (String.mk (q.toList.map Char.toLower)).toList
        = q.toList.map Char.toLower from rfl, List.mem_map] at hc
    obtain ⟨x, hx, rfl⟩ := hc
    rw [toLower_isPySpace (h x hx)]
    exact h x hx
  rw [dropWhile_all_eq_nil hall]
  rfl

/-- C10: a nonempty query consisting only of whitespace strips to an
empty word list, so advanced search in mode all returns every document
(the universal word test is vacuously true) while advanced search in
mode any returns the empty list (the existential word test is false). -/
theorem C10_whitespace_query (docs : List Document) (q : String)
    (hq : q ≠ "") (hsp : ∀ c ∈ q.toList, isPySpace c = true) :
    search_in_instructions docs q ("advanced") ("all") = docs ∧
      search_in_instructions docs q ("advanced") ("any") = [] := by
  unfold search_in_instructions
  rw [if_neg hq, if_neg hq, pyStrip_all_space hsp]
  constructor
  · have hone : ∀ a, searchOne ("") ("advanced") ("all") a = some a := by
      intro a
      rw [searchOne_advanced_all]
      rfl
    rw [List.filterMap_congr (fun a _ => hone a)]
    exact List.filterMap_some docs
  · have hone : ∀ a, searchOne ("") ("advanced") ("any") a = none := by
      intro a
      rw [searchOne_advanced_any]
      rfl
    rw [List.filterMap_congr (fun a _ => hone a)]
    induction docs with
    | nil => rfl
    | cons a as ih => simp [List.filterMap_cons, ih]

theorem C10_witness :
    search_in_instructions [(⟨"a", "T", "C", [], 0, none⟩ : Document)]
          (" ") ("advanced") ("all") = [(⟨"a", "T", "C", [], 0, none⟩ : Document)] ∧
      search_in_instructions [(⟨"a", "T", "C", [], 0, none⟩ : Document)]
          (" ") ("advanced") ("any") = [] :=
  C10_whitespace_query [(⟨"a", "T", "C", [], 0, none⟩ : Document)] (" ")
    (by decide) (by decide)

theorem length_dropWhile_le (p : Char → Bool) (l : List Char) :
    (l.dropWhile p).length ≤ l.length := by
  induction l with
  | nil => simp
  | cons x xs ih =>
    rw [List.dropWhile_cons]
    split
    · exact le_trans ih (by simp)
    · simp

theorem tryImage_length {cs a t r : List Char}
    (h : tryImage cs = some (a, t, r)) : r.length < cs.length := by
  unfold tryImage at h
  split at h
  · rename_i rest
    split at h
    · rename_i rest2 heq1
      split at h
      · rename_i rest3 heq2
        split at h
        · exact absurd h (by simp)
        · have hr : rest3 = r := congrArg (fun z => z.2.2) (Option.some.inj h)
          have h1 : rest2.length + 2 ≤ rest.length := by
            have := congrArg List.length heq1
            simp only [List.length_cons] at this
            have hle := length_dropWhile_le (fun c => c != ']') rest
            omega
          have h2 : rest3.length + 1 ≤ rest2.length := by
            have := congrArg List.length heq2
            simp only [List.length_cons] at this
            have hle := length_dropWhile_le (fun c => c != ')') rest2
            omega
          rw [← hr]
          simp only [List.length_cons]
          omega
      · exact absurd h (by simp)
    · exact absurd h (by simp)
  · exact absurd h (by simp)

theorem rewriteImagesAux_fuel (d : List Char) :
    ∀ (f1 f2 : Nat) (cs : List Char), cs.length ≤ f1 → cs.length ≤ f2 →
      rewriteImagesAux d f1 cs = rewriteImagesAux d f2 cs := by
  intro f1
  induction f1 with
  | zero =>
    intro f2 cs h1 h2
    obtain rfl : cs = [] := List.length_eq_zero.mp (Nat.le_zero.mp h1)
    cases f2 <;> rfl
  | succ k ih =>
    intro f2 cs h1 h2
    cases cs with
    | nil => cases f2 <;> rfl
    | cons c rest =>
      rw [List.length_cons] at h1 h2
      cases f2 with
      | zero => omega
      | succ m =>
        show (match tryImage (c :: rest) with
          | some (alt, tgt, r) =>
            imageReplacement d alt tgt ++ rewriteImagesAux d k r
          | none => c :: rewriteImagesAux d k rest) =
          (match tryImage (c :: rest) with
          | some (alt, tgt, r) =>
            imageReplacement d alt tgt ++ rewriteImagesAux d m r
          | none => c :: rewriteImagesAux d m rest)
        cases htry : tryImage (c :: rest) with
        | none =>
          simp only
          rw [ih m rest (by omega) (by omega)]
        | some val =>
          obtain ⟨alt, tgt, r⟩ := val
          have hlen := tryImage_length htry
          rw [List.length_cons] at hlen
          simp only
          rw [ih m r (by omega) (by omega)]

theorem takeWhile_all_append (p : Char → Bool) (l r : List Char)
    (h : ∀ c ∈ l, p c = true) :
    (l ++ r).takeWhile p = l ++ r.takeWhile p := by
  induction l with
  | nil => rfl
  | cons x xs ih =>
    rw [List.cons_append, List.takeWhile_cons, if_pos (h x (by simp))]
    rw [ih (fun c hc => h c (by simp [hc]))]
    rfl

theorem dropWhile_all_append (p : Char → Bool) (l r : List Char)
    (h : ∀ c ∈ l, p c = true) :
    (l ++ r).dropWhile p = r.dropWhile p := by
  induction l with
  | nil => rfl
  | cons x xs ih =>
    rw [List.cons_append, List.dropWhile_cons, if_pos (h x (by simp))]
    exact ih (fun c hc => h c (by simp [hc]))

theorem tryImage_ref (alt tgt rest : List Char)
    (halt : ∀ c ∈ alt, c ≠ ']') (ht0 : tgt ≠ []) (ht : ∀ c ∈ tgt, c ≠ ')') :
    tryImage ('!' :: '[' :: (alt ++ ']' :: '(' :: (tgt ++ ')' :: rest))) =
      some (alt, tgt, rest) := by
  have halt' : ∀ c ∈ alt, (c != ']') = true := by
    intro c hc
    simpa [bne_iff_ne] using halt c hc
  have ht' : ∀ c ∈ tgt, (c != ')') = true := by
    intro c hc
    simpa [bne_iff_ne] using ht c hc
  have hd1 : (alt ++ ']' :: '(' :: (tgt ++ ')' :: rest)).dropWhile
      (fun c => c != ']') = ']' :: '(' :: (tgt ++ ')' :: rest) := by
    rw [dropWhile_all_append _ _ _ halt', List.dropWhile_cons]
    simp
  have ht1 : (alt ++ ']' :: '(' :: (tgt ++ ')' :: rest)).takeWhile
      (fun c => c != ']') = alt := by
    rw [takeWhile_all_append _ _ _ halt', List.takeWhile_cons]
    simp
  have hd2 : (tgt ++ ')' :: rest).dropWhile (fun c => c != ')') =
      ')' :: rest := by
    rw [dropWhile_all_append _ _ _ ht', List.dropWhile_cons]
    simp
  have ht2 : (tgt ++ ')' :: rest).takeWhile (fun c => c != ')') = tgt := by
    rw [takeWhile_all_append _ _ _ ht', List.takeWhile_cons]
    simp
  show (match (alt ++ ']' :: '(' :: (tgt ++ ')' :: rest)).dropWhile
      (fun c => c != ']') with
    | ']' :: '(' :: rest2 =>
      (match rest2.dropWhile (fun c => c != ')') with
        | ')' :: rest3 =>
          if rest2.takeWhile (fun c => c != ')') = [] then none
          else some ((alt ++ ']' :: '(' :: (tgt ++ ')' :: rest)).takeWhile
            (fun c => c != ']'), rest2.takeWhile (fun c => c != ')'), rest3)
        | _ => none)
    | _ => none) = some (alt, tgt, rest)
  rw [hd1]
  simp only
  rw [hd2]
  simp only
  rw [ht2, if_neg ht0, ht1]

/-- C5 (amended): an image reference whose target starts with the
literal prefix http is left unchanged by the rewrite pass, any other
target is rewritten onto the internal image route of the current
document, and the surrounding text is processed unchanged. The code
tests for the prefix http, not for a general URL scheme. -/
theorem C5_image_rewrite (d alt tgt rest : List Char)
    (halt : ∀ c ∈ alt, c ≠ ']') (ht0 : tgt ≠ []) (ht : ∀ c ∈ tgt, c ≠ ')') :
    rewriteImages d ('!' :: '[' :: (alt ++ ']' :: '(' :: (tgt ++ ')' :: rest))) =
      (if List.isPrefixOf (['h', 't', 't', 'p']) tgt then
        '!' :: '[' :: (alt ++ ']' :: '(' :: (tgt ++ [')']))
      else
        '!' :: '[' :: (alt ++ ']' :: '(' ::
          ("/image/".toList ++ (d ++ '/' :: (tgt ++ [')'])))))
        ++ rewriteImages d rest := by
  unfold rewriteImages
  have hstep :
      rewriteImagesAux d ('!' :: '[' :: (alt ++ ']' :: '(' ::
          (tgt ++ ')' :: rest))).length
        ('!' :: '[' :: (alt ++ ']' :: '(' :: (tgt ++ ')' :: rest))) =
      imageReplacement d alt tgt ++
        rewriteImagesAux d ((alt ++ ']' :: '(' :: (tgt ++ ')' :: rest)).length + 1)
          rest := by
    rw [show ('!' :: '[' :: (alt ++ ']' :: '(' :: (tgt ++ ')' :: rest))).length
      = ((alt ++ ']' :: '(' :: (tgt ++ ')' :: rest)).length + 1) + 1 from by
        simp [List.length_cons]]
    show (match tryImage ('!' :: '[' :: (alt ++ ']' :: '(' ::
        (tgt ++ ')' :: rest))) with
      | some (a, t, r) =>
        imageReplacement d a t ++
          rewriteImagesAux d ((alt ++ ']' :: '(' :: (tgt ++ ')' :: rest)).length + 1) r
      | none => '!' :: rewriteImagesAux d
          ((alt ++ ']' :: '(' :: (tgt ++ ')' :: rest)).length + 1)
          ('[' :: (alt ++ ']' :: '(' :: (tgt ++ ')' :: rest)))) = _
    rw [tryImage_ref alt tgt rest halt ht0 ht]
  rw [hstep]
  rw [rewriteImagesAux_fuel d _ rest.length rest
    (by simp [List.length_append, List.length_cons]; omega) (le_refl _)]
  rfl

theorem C5_witness :
    rewriteImages (("abc").toList)
        ('!' :: '[' :: ((("x").toList) ++ ']' :: '(' ::
          ((("pic.png").toList) ++ ')' :: []))) =
      (if List.isPrefixOf (['h', 't', 't', 'p']) (("pic.png").toList) then
        '!' :: '[' :: ((("x").toList) ++ ']' :: '(' :: ((("pic.png").toList) ++ [')']))
      else
        '!' :: '[' :: ((("x").toList) ++ ']' :: '(' ::
          ("/image/".toList ++ ((("abc").toList) ++ '/' :: ((("pic.png").toList) ++ [')'])))))
        ++ rewriteImages (("abc").toList) [] :=
  C5_image_rewrite (("abc").toList) (("x").toList) (("pic.png").toList) []
    (by decide) (by decide) (by decide)

/-- C5 (counterexample): a target beginning with the URL scheme ftp is
not left unchanged: because the code only tests for the literal prefix
http, the reference is rewritten onto the internal image route. -/
theorem C5_counterexample :
    specSchemeTarget (("ftp://y/z.png").toList) = true ∧
      rewriteImages (("d").toList) (("![x](ftp://y/z.png)").toList) =
        (("![x](/image/d/ftp://y/z.png)").toList) := by
  decide

end Garage

